import Mathlib

/-!
Verification of the bounded context assembly and rolling summarization engine
(token budget allocator in `app/chat_service.py`, tokenizer wrapper in
`app/token_budget.py`, summary store in `app/history_repository.py`).

The tokenizer backend (tiktoken's `cl100k_base`) is an external library; per
the specification it is a pluggable encoding, so it is modelled as a parameter
`Tokenizer` holding `encode`/`decode`.  The wrapper functions `count_tokens`
and `trim_text_to_tokens` are translated from `app/token_budget.py`.
Machine integers are modelled as `Nat` (token counts are list lengths and
never overflow in the source's regime).  Python's `.strip()` and `.upper()`
are modelled by character-list operations with the same semantics on the
relevant inputs.
-/

/-- The pluggable token encoding (tiktoken `_ENC` in `app/token_budget.py`). -/
structure Tokenizer where
  encode : String → List Nat
  decode : List Nat → String

/-- `count_tokens` from `app/token_budget.py`:
`if not text: return 0; return len(_ENC.encode(text))`. -/
def count_tokens (E : Tokenizer) (text : String) : Nat :=
  if text = "" then 0 else (E.encode text).length

/-- `trim_text_to_tokens` from `app/token_budget.py`. -/
def trim_text_to_tokens (E : Tokenizer) (text : String) (max_tok : Nat) : String :=
  if text = "" then text
  else
    let tokens := E.encode text
    if tokens.length ≤ max_tok then text
    else E.decode (tokens.take max_tok)

/-- `MAX_TOKENS` from `app/token_budget.py`. -/
def MAX_TOKENS : Nat := 100000

/-- `_RECENT_TURNS` from `app/chat_service.py`. -/
def RECENT_TURNS : Nat := 20

/-- `_SUMMARIZE_THRESHOLD` from `app/chat_service.py`. -/
def SUMMARIZE_THRESHOLD : Nat := 40

/-- `_HISTORY_TOKEN_TRIGGER` from `app/chat_service.py`. -/
def HISTORY_TOKEN_TRIGGER : Nat := 60000

/-- `_RAG_CHUNK_TOKENS` from `app/chat_service.py`. -/
def RAG_CHUNK_TOKENS : Nat := 300

/-- `_RAG_MAX_CHUNKS` from `app/chat_service.py`. -/
def RAG_MAX_CHUNKS : Nat := 20

/-- `_SUMMARY_MAX_TOKENS` from `app/chat_service.py`. -/
def SUMMARY_MAX_TOKENS : Nat := 800

/-- A reference instance of the pluggable encoding: one token per character.
It satisfies the tokenizer contract of the spec and is used to evaluate the
engine on concrete inputs. -/
def charEnc : Tokenizer where
  encode s := s.data.map Char.toNat
  decode l := String.mk (l.map Char.ofNat)

/-- A stored chat message row (`chat_messages` table): store-assigned
strictly increasing integer id, role, content. -/
structure Message where
  id : Nat
  role : String
  content : String
deriving DecidableEq

/-- One prompt entry sent to the completion oracle (`{"role": .., "content": ..}`). -/
structure ChatMsg where
  role : String
  content : String
deriving DecidableEq

/-- A retrieved passage as consumed by `_build_prompt` (only the `text`
payload field is read there). -/
structure RagHit where
  text : String
deriving DecidableEq

/-- Token breakdown dictionary returned by `_build_prompt`. -/
structure Breakdown where
  tokens_system : Nat
  tokens_summary : Nat
  tokens_history : Nat
  tokens_hrv : Nat
  tokens_rag : Nat
  tokens_total : Nat
deriving DecidableEq

/-- Minimal JSON value model for the biometric snapshot payloads
(numbers as integers; adequate because no claim depends on number
formatting). -/
inductive Json where
  | null
  | bool (b : Bool)
  | num (n : Int)
  | str (s : String)
  | arr (elems : List Json)
  | obj (fields : List (String × Json))

/-- Python truthiness of a JSON value (`if daily:`). -/
def Json.truthy : Json → Bool
  | .null => false
  | .bool b => b
  | .num n => n != 0
  | .str s => s != ""
  | .arr es => !es.isEmpty
  | .obj fs => !fs.isEmpty

/-- JSON string escaping as in `json.dumps` with `ensure_ascii=False`
(quote, backslash and the common control characters). -/
def Json.escapeStr (s : String) : String :=
  String.mk (s.data.flatMap (fun c =>
    if c = '"' then ['\\', '"']
    else if c = '\\' then ['\\', '\\']
    else if c = '\n' then ['\\', 'n']
    else if c = '\t' then ['\\', 't']
    else if c = '\r' then ['\\', 'r']
    else [c]))

mutual

/-- `json.dumps(-, ensure_ascii=False)` on the JSON model. -/
def Json.dumps : Json → String
  | .null => "null"
  | .bool true => "true"
  | .bool false => "false"
  | .num n => toString n
  | .str s => "\"" ++ Json.escapeStr s ++ "\""
  | .arr es => "[" ++ Json.dumpsList es ++ "]"
  | .obj fs => "\x7b" ++ Json.dumpsFields fs ++ "\x7d"

/-- Comma-separated rendering of a JSON array body. -/
def Json.dumpsList : List Json → String
  | [] => ""
  | [e] => Json.dumps e
  | e :: rest => Json.dumps e ++ ", " ++ Json.dumpsList rest

/-- Comma-separated rendering of a JSON object body. -/
def Json.dumpsFields : List (String × Json) → String
  | [] => ""
  | [(k, v)] => "\"" ++ Json.escapeStr k ++ "\": " ++ Json.dumps v
  | (k, v) :: rest =>
      "\"" ++ Json.escapeStr k ++ "\": " ++ Json.dumps v ++ ", " ++ Json.dumpsFields rest

end

/-- The biometric context dictionary as produced by `fetch_hrv_context`
(`app/hrv_client.py`): the only keys `_build_prompt` reads. `none` models an
absent key. -/
structure HrvContext where
  daily_14d : Option Json
  hrv_90d : Option Json
  hr_90d : Option Json
  sleep_90d : Option Json
  steps_90d : Option Json

/-- Python truthiness of the context dict (`if hrv_context:`): the dict is
empty iff none of its possible keys is present. -/
def HrvContext.isEmptyCtx (h : HrvContext) : Bool :=
  h.daily_14d.isNone && h.hrv_90d.isNone && h.hr_90d.isNone &&
    h.sleep_90d.isNone && h.steps_90d.isNone

/-- The empty biometric context (`{}`). -/
def emptyHrv : HrvContext := ⟨none, none, none, none, none⟩

/-- Python `text.strip()`: drop whitespace from both ends. -/
def pyStrip (s : String) : String :=
  String.mk (((s.data.dropWhile Char.isWhitespace).reverse.dropWhile Char.isWhitespace).reverse)

/-- Python `role.upper()` (ASCII roles). -/
def pyUpper (s : String) : String :=
  String.mk (s.data.map Char.toUpper)

/-- Python `l[-n:]` for `n > 0` (all call sites guard `n > 0` or use a
positive constant): the suffix of the last `n` elements. -/
def lastN (n : Nat) (l : List α) : List α :=
  l.drop (l.length - n)

/-- `_system_prompt` from `app/chat_service.py`. -/
def system_prompt : String :=
  "You are NeuroHeart, a personal health insights assistant. " ++
  "Use the provided HRV and health context when relevant to give personalized advice. " ++
  "Never reference another user\x27s data. " ++
  "Keep answers concise, practical, and supportive."

/-- The `HRV_DAILY_14D` block of `_build_prompt` (lines 174-185). -/
def hrv_daily_block (hrv : HrvContext) : String :=
  if hrv.isEmptyCtx then ""
  else
    match hrv.daily_14d with
    | some daily => if daily.truthy then "HRV_DAILY_14D:\n" ++ Json.dumps daily else ""
    | none => ""

/-- The `agg` dict comprehension of `_build_prompt` (line 181): keys present
in the context, in the order of `agg_keys`. -/
def agg_fields (hrv : HrvContext) : List (String × Json) :=
  (match hrv.hrv_90d with | some j => [("hrv_90d", j)] | none => []) ++
  (match hrv.hr_90d with | some j => [("hr_90d", j)] | none => []) ++
  (match hrv.sleep_90d with | some j => [("sleep_90d", j)] | none => []) ++
  (match hrv.steps_90d with | some j => [("steps_90d", j)] | none => [])

/-- The `HRV_AGGREGATES_90D` block of `_build_prompt`. -/
def hrv_agg_block (hrv : HrvContext) : String :=
  if hrv.isEmptyCtx then ""
  else
    match agg_fields hrv with
    | [] => ""
    | fs => "HRV_AGGREGATES_90D:\n" ++ Json.dumps (Json.obj fs)

/-- `hrv_daily_tok` of `_build_prompt` (line 185). -/
def hrv_daily_tok (E : Tokenizer) (hrv : HrvContext) : Nat :=
  if hrv_daily_block hrv ≠ "" then count_tokens E (hrv_daily_block hrv) + 4 else 0

/-- `hrv_agg_tok` of `_build_prompt` (line 186). -/
def hrv_agg_tok (E : Tokenizer) (hrv : HrvContext) : Nat :=
  if hrv_agg_block hrv ≠ "" then count_tokens E (hrv_agg_block hrv) + 4 else 0

/-- `trimmed_snips` of `_build_prompt` (lines 189-193): at most
`_RAG_MAX_CHUNKS` hits, stripped, empty texts dropped, each trimmed to
`_RAG_CHUNK_TOKENS` tokens. -/
def trimmed_snips (E : Tokenizer) (rag_hits : List RagHit) : List String :=
  (rag_hits.take RAG_MAX_CHUNKS).filterMap (fun h =>
    let text := pyStrip h.text
    if text = "" then none else some (trim_text_to_tokens E text RAG_CHUNK_TOKENS))

/-- `history_blocks` of `_build_prompt` (lines 196-200): the last
`_RECENT_TURNS` history rows with user/assistant role and non-empty content. -/
def history_blocks (history : List Message) : List ChatMsg :=
  (lastN RECENT_TURNS history).filterMap (fun m =>
    if (m.role = "user" ∨ m.role = "assistant") ∧ m.content ≠ "" then
      some ⟨m.role, m.content⟩
    else none)

/-- `_rag_tok` of `_build_prompt` (lines 209-212). -/
def rag_tok (E : Tokenizer) (snips : List String) (n : Nat) : Nat :=
  if n = 0 then 0 else count_tokens E (String.intercalate "\n- " (snips.take n)) + 4

/-- `_hist_tok` of `_build_prompt` (lines 214-215). -/
def hist_tok (E : Tokenizer) (blocks : List ChatMsg) (n : Nat) : Nat :=
  if n = 0 then 0
  else ((lastN n blocks).map (fun b => count_tokens E b.content + 4)).sum

/-- The fixed token cost already consumed before budget enforcement: system
prompt block plus (optional) summary block, each with the 4-token framing
overhead (`used` at line 205). -/
def used_fixed (E : Tokenizer) (summary : String) : Nat :=
  (count_tokens E system_prompt + 4) +
    (if summary ≠ "" then count_tokens E ("SESSION_SUMMARY:\n" ++ summary) + 4 else 0)

/-- The candidate total evaluated inside the budget ladder (line 226). -/
def total_tokens_at (E : Tokenizer) (summary : String) (history : List Message)
    (hrv : HrvContext) (rag_hits : List RagHit) (user_message : String)
    (r h : Nat) : Nat :=
  used_fixed E summary + (hrv_daily_tok E hrv + hrv_agg_tok E hrv) +
    rag_tok E (trimmed_snips E rag_hits) r +
    hist_tok E (history_blocks history) h +
    (count_tokens E user_message + 4)

/-- The candidate `(rag, hist)` pairs tried by the nested ladder of
`_build_prompt` (lines 222-225), in evaluation order: outer loop over the rag
ladder, inner loop over the hist ladder, each candidate clamped by `min`. -/
def alloc_pairs (rag_full hist_full : Nat) : List (Nat × Nat) :=
  ([rag_full, 10, 5, 0].map (fun c => min c rag_full)).flatMap (fun r =>
    ([hist_full, 12, 8, 4, 0].map (fun c => min c hist_full)).map (fun h => (r, h)))

/-- The budget-enforcement loop of `_build_prompt` (lines 221-233): the first
candidate pair whose total fits `MAX_TOKENS` is selected; when no pair fits,
the Python `for..else` fallthrough leaves `rag_n` and `hist_n` at their full
initial values. -/
def choose_alloc (total : Nat → Nat → Nat) (rag_full hist_full : Nat) : Nat × Nat :=
  match (alloc_pairs rag_full hist_full).find? (fun p => total p.1 p.2 ≤ MAX_TOKENS) with
  | some p => p
  | none => (rag_full, hist_full)

/-- The `(rag_n, hist_n)` sizes selected by `_build_prompt`'s budget ladder. -/
def alloc_sizes (E : Tokenizer) (summary : String) (history : List Message)
    (hrv : HrvContext) (rag_hits : List RagHit) (user_message : String) : Nat × Nat :=
  choose_alloc (total_tokens_at E summary history hrv rag_hits user_message)
    (trimmed_snips E rag_hits).length (history_blocks history).length

/-- `_build_prompt` from `app/chat_service.py` (lines 127-264): assembles the
ordered block sequence and the token breakdown.  The incoming user message is
not appended here (the caller appends it) but its cost is reserved in
`tokens_total`. -/
def build_prompt (E : Tokenizer) (summary : String) (history : List Message)
    (hrv : HrvContext) (rag_hits : List RagHit) (user_message : String) :
    List ChatMsg × Breakdown :=
  let tokens_system := count_tokens E system_prompt + 4
  let msgs1 : List ChatMsg :=
    [⟨"system", system_prompt⟩] ++
      (if summary ≠ "" then [(⟨"system", "SESSION_SUMMARY:\n" ++ summary⟩ : ChatMsg)] else [])
  let tokens_summary :=
    if summary ≠ "" then count_tokens E ("SESSION_SUMMARY:\n" ++ summary) + 4 else 0
  let used1 := tokens_system + tokens_summary
  let dBlock := hrv_daily_block hrv
  let aBlock := hrv_agg_block hrv
  let dTok := hrv_daily_tok E hrv
  let aTok := hrv_agg_tok E hrv
  let snips := trimmed_snips E rag_hits
  let blocks := history_blocks history
  let user_tok := count_tokens E user_message + 4
  let sizes := alloc_sizes E summary history hrv rag_hits user_message
  let rag_n := sizes.1
  let hist_n := sizes.2
  let msgs2 := msgs1 ++ (if dBlock ≠ "" then [(⟨"system", dBlock⟩ : ChatMsg)] else [])
  let used2 := used1 + (if dBlock ≠ "" then dTok else 0)
  let msgs3 := msgs2 ++ (if aBlock ≠ "" then [(⟨"system", aBlock⟩ : ChatMsg)] else [])
  let used3 := used2 + (if aBlock ≠ "" then aTok else 0)
  let tokens_hrv := (if dBlock ≠ "" then dTok else 0) + (if aBlock ≠ "" then aTok else 0)
  let msgs4 := msgs3 ++
    (if rag_n > 0 then
      [(⟨"system", "RAG_CONTEXT:\n- " ++ String.intercalate "\n- " (snips.take rag_n)⟩ : ChatMsg)]
    else [])
  let tokens_rag := if rag_n > 0 then rag_tok E snips rag_n else 0
  let used4 := used3 + tokens_rag
  let final_history := if hist_n > 0 then lastN hist_n blocks else []
  let msgs5 := msgs4 ++ final_history
  let tokens_history := hist_tok E blocks hist_n
  let used5 := used4 + tokens_history
  (msgs5,
   { tokens_system := tokens_system
     tokens_summary := tokens_summary
     tokens_history := tokens_history
     tokens_hrv := tokens_hrv
     tokens_rag := tokens_rag
     tokens_total := used5 + user_tok })

/-- The `conversation_summaries` row for one conversation: summary text and
the `summarized_through_message_id` watermark. -/
structure SummaryRow where
  summary : String
  watermark : Option Nat
deriving DecidableEq

/-- The persistent state of one conversation: its `chat_messages` rows, its
(optional) `conversation_summaries` row, and the store's id sequence
counter (ids are store-assigned and strictly increasing). -/
structure ConvState where
  messages : List Message
  summaryRow : Option SummaryRow
  nextId : Nat
deriving DecidableEq

/-- Insertion sort by id, ascending: models `ORDER BY id ASC` of the store. -/
def insertById (m : Message) : List Message → List Message
  | [] => [m]
  | x :: xs => if m.id ≤ x.id then m :: x :: xs else x :: insertById m xs

/-- Sort messages ascending by id. -/
def sortById : List Message → List Message
  | [] => []
  | m :: ms => insertById m (sortById ms)

/-- `count_messages` from `app/history_repository.py` (`SELECT COUNT(*)`). -/
def count_messages_db (st : ConvState) : Nat :=
  st.messages.length

/-- `insert_message` from `app/history_repository.py`: append a row with the
next store-assigned id. -/
def insert_message (st : ConvState) (role content : String) : ConvState :=
  { st with
    messages := st.messages ++ [⟨st.nextId, role, content⟩]
    nextId := st.nextId + 1 }

/-- `get_or_create_summary` from `app/history_repository.py`: return the
stored row, or lazily create (and return) an empty row with null watermark. -/
def get_or_create_summary (st : ConvState) : ConvState × SummaryRow :=
  match st.summaryRow with
  | some r => (st, r)
  | none => ({ st with summaryRow := some ⟨"", none⟩ }, ⟨"", none⟩)

/-- The state after `get_or_create_summary` (row lazily created if absent). -/
def ensureRow (st : ConvState) : ConvState :=
  match st.summaryRow with
  | some _ => st
  | none => { st with summaryRow := some ⟨"", none⟩ }

/-- `update_summary` from `app/history_repository.py`: unconditional
`UPDATE .. WHERE conversation_id` — a no-op when no row exists. -/
def update_summary (st : ConvState) (summarized_through_id : Nat) (summary_text : String) :
    ConvState :=
  match st.summaryRow with
  | none => st
  | some _ => { st with summaryRow := some ⟨summary_text, some summarized_through_id⟩ }

/-- `fetch_messages_for_summarization` from `app/history_repository.py`:
messages with `after_id < id < before_id` (no lower bound when `after_id` is
null), ascending by id. -/
def fetch_messages_for_summarization (st : ConvState) (after_id : Option Nat)
    (before_id : Nat) : List Message :=
  (sortById st.messages).filter (fun m =>
    (match after_id with
     | some a => decide (a < m.id)
     | none => true) && decide (m.id < before_id))

/-- `fetch_recent_message_ids` from `app/history_repository.py`: ids of the
most recent `n` messages, ascending. -/
def fetch_recent_message_ids (st : ConvState) (n : Nat) : List Nat :=
  lastN n ((sortById st.messages).map (fun m => m.id))

/-- `fetch_history` from `app/history_repository.py` (no `before_id` caller):
the most recent `limit` messages, ascending for prompting.  Creation-time
order coincides with id order for store-assigned ids. -/
def fetch_history (st : ConvState) (limit : Nat) : List Message :=
  lastN limit (sortById st.messages)

/-- `_summarization_prompt` from `app/chat_service.py` (lines 48-75). -/
def summarization_prompt (existing_summary : String) (messages : List Message) :
    List ChatMsg :=
  let lines := messages.filterMap (fun m =>
    if m.role = "user" ∨ m.role = "assistant" then
      some (pyUpper m.role ++ ": " ++ m.content)
    else none)
  let history_text := String.intercalate "\n" lines
  let user_content :=
    "You are summarizing a health coaching chat session.\n\n" ++
    (if existing_summary ≠ "" then
      "EXISTING SUMMARY:\n" ++ existing_summary ++ "\n\n"
    else "") ++
    "NEW MESSAGES TO INCORPORATE:\n" ++ history_text ++ "\n\n" ++
    "Produce a concise updated summary in this structured format:\n" ++
    "- User profile / preferences learned:\n" ++
    "- Recurring symptoms / patterns mentioned:\n" ++
    "- Key events / dates:\n" ++
    "- Action items / commitments:\n" ++
    "- Open questions / unresolved threads:\n" ++
    "Keep each section to 1-3 bullet points maximum."
  [⟨"system", "You are a precise summarizer."⟩, ⟨"user", user_content⟩]

/-- `max(m["id"] for m in to_summarize)` (only ever applied to a non-empty
list in the source; `0` is an unreachable sentinel for `[]`). -/
def maxIdOf : List Message → Nat
  | [] => 0
  | m :: rest => rest.foldl (fun a x => max a x.id) m.id

/-- The completion oracle (`call_gpt`): a text completion that may raise. -/
def Oracle : Type := List ChatMsg → Except String String

/-- The shared tail of `_maybe_summarize` (lines 112-124): empty-set check,
then the `try` block — build the compression request, call the oracle, trim,
advance the watermark; on any failure return the previous summary unchanged. -/
def run_compression (E : Tokenizer) (oracle : Oracle) (st : ConvState)
    (current_summary : String) (to_summarize : List Message) : ConvState × String :=
  match to_summarize with
  | [] => (st, current_summary)
  | _ =>
    match oracle (summarization_prompt current_summary to_summarize) with
    | .error _ => (st, current_summary)
    | .ok raw =>
      let new_summary := trim_text_to_tokens E raw SUMMARY_MAX_TOKENS
      let max_id := maxIdOf to_summarize
      (update_summary st max_id new_summary, new_summary)

/-- `_maybe_summarize` from `app/chat_service.py` (lines 78-124): the
summarization scheduler for one conversation.  Returns the updated
conversation state and the current rolling summary text. -/
def maybe_summarize (E : Tokenizer) (oracle : Oracle) (st : ConvState) :
    ConvState × String :=
  let total := count_messages_db st
  let stRow := get_or_create_summary st
  let st1 := stRow.1
  let current_summary := stRow.2.summary
  let last_summarized_id := stRow.2.watermark
  let recent_ids := fetch_recent_message_ids st1 RECENT_TURNS
  if recent_ids = [] then (st1, current_summary)
  else
    let cutoff_id := recent_ids.headD 0
    if total ≤ SUMMARIZE_THRESHOLD then
      let older := fetch_messages_for_summarization st1 last_summarized_id cutoff_id
      let older_tokens := (older.map (fun m => count_tokens E m.content)).sum
      if older_tokens < HISTORY_TOKEN_TRIGGER then (st1, current_summary)
      else run_compression E oracle st1 current_summary older
    else
      run_compression E oracle st1 current_summary
        (fetch_messages_for_summarization st1 last_summarized_id cutoff_id)

/-- The watermark currently stored for the conversation (null when the
summary row does not exist yet). -/
def watermark_of (st : ConvState) : Option Nat :=
  match st.summaryRow with
  | some r => r.watermark
  | none => none

/-- The summary text the scheduler regards as current (empty when the row
does not exist yet). -/
def current_summary_of (st : ConvState) : String :=
  match st.summaryRow with
  | some r => r.summary
  | none => ""

/-- The messages eligible for compression at `st`: older than the oldest id
of the recent verbatim window and newer than the stored watermark (the
`to_summarize` set of `_maybe_summarize`). -/
def eligible_older (st : ConvState) : List Message :=
  if fetch_recent_message_ids st RECENT_TURNS = [] then []
  else
    fetch_messages_for_summarization st (watermark_of st)
      ((fetch_recent_message_ids st RECENT_TURNS).headD 0)

/-- Token cost of the eligible older messages (`older_tokens`). -/
def older_tokens_of (E : Tokenizer) (st : ConvState) : Nat :=
  ((eligible_older st).map (fun m => count_tokens E m.content)).sum

/-- The slice of `chat_once` (`app/chat_service.py` lines 276-291) that
assembles the prompt sent to the completion oracle: persist the incoming user
turn, fetch recent history (limit `_RECENT_TURNS + 2`), run the summarization
scheduler, build the prompt, then append the user message as the final turn. -/
def chat_once_prompt (E : Tokenizer) (oracle : Oracle) (hrv : HrvContext)
    (rag_hits : List RagHit) (st : ConvState) (user_message : String) :
    List ChatMsg :=
  let st1 := insert_message st "user" user_message
  let history := fetch_history st1 (RECENT_TURNS + 2)
  let summary := (maybe_summarize E oracle st1).2
  (build_prompt E summary history hrv rag_hits user_message).1 ++
    [⟨"user", user_message⟩]

/-- Length of a packed character list. -/
theorem string_mk_length (l : List Char) : (String.mk l).length = l.length := rfl

/-- Under the per-character reference encoding, the token count of a text is
its character count. -/
theorem count_tokens_charEnc (s : String) : count_tokens charEnc s = s.length := by
  by_cases h : s = ""
  · subst h; rfl
  · show (if s = "" then 0 else (charEnc.encode s).length) = s.length
    rw [if_neg h]
    show (s.data.map Char.toNat).length = s.length
    rw [List.length_map]
    rfl

/-- A string of `n` repeated characters, used to build concrete inputs of a
prescribed token cost. -/
def aStr (n : Nat) : String := String.mk (List.replicate n 'a')

theorem aStr_length (n : Nat) : (aStr n).length = n := by
  simp [aStr, string_mk_length]

theorem aStr_ne_empty {n : Nat} (h : n ≠ 0) : aStr n ≠ "" := by
  intro he
  have hd : (aStr n).length = ("" : String).length := by rw [he]
  rw [aStr_length] at hd
  exact h hd

theorem count_tokens_aStr (n : Nat) : count_tokens charEnc (aStr n) = n := by
  rw [count_tokens_charEnc, aStr_length]

/-- C8: for every text and every `n`, the trimmed text costs at most `n`
tokens and its token sequence is a prefix of the original text's token
sequence, and the empty text costs zero tokens.  The hypothesis is the
underlying encoding's prefix round-trip property at this input ("never
truncates below token boundaries of the underlying encoding"). -/
theorem trim_respects_budget (E : Tokenizer) (text : String) (n : Nat)
    (hb : E.encode (E.decode ((E.encode text).take n)) = (E.encode text).take n) :
    count_tokens E (trim_text_to_tokens E text n) ≤ n ∧
    E.encode (trim_text_to_tokens E text n) <+: E.encode text ∧
    count_tokens E "" = 0 := by
  refine ⟨?_, ?_, rfl⟩
  · by_cases h0 : text = ""
    · simp [trim_text_to_tokens, h0, count_tokens]
    · by_cases hlen : (E.encode text).length ≤ n
      · simp [trim_text_to_tokens, h0, hlen, count_tokens]
      · have htrim : trim_text_to_tokens E text n = E.decode ((E.encode text).take n) := by
          simp [trim_text_to_tokens, h0, hlen]
        rw [htrim]
        by_cases hdec : E.decode ((E.encode text).take n) = ""
        · simp [count_tokens, hdec]
        · simp only [count_tokens, if_neg hdec, hb, List.length_take]
          exact min_le_left _ _
  · by_cases h0 : text = ""
    · simp [trim_text_to_tokens, h0]
    · by_cases hlen : (E.encode text).length ≤ n
      · simp [trim_text_to_tokens, h0, hlen]
      · have htrim : trim_text_to_tokens E text n = E.decode ((E.encode text).take n) := by
          simp [trim_text_to_tokens, h0, hlen]
        rw [htrim, hb]
        exact List.take_prefix n _

/-- Concrete instance of `trim_respects_budget` on the reference encoding. -/
theorem trim_respects_budget_witness :
    charEnc.encode (charEnc.decode ((charEnc.encode "hello").take 3)) =
        (charEnc.encode "hello").take 3 ∧
      (count_tokens charEnc (trim_text_to_tokens charEnc "hello" 3) ≤ 3 ∧
       charEnc.encode (trim_text_to_tokens charEnc "hello" 3) <+: charEnc.encode "hello" ∧
       count_tokens charEnc "" = 0) :=
  ⟨by decide, trim_respects_budget charEnc "hello" 3 (by decide)⟩

/-- The total reported by `_build_prompt` is the sum of the reported
categories plus the reserved user-turn cost. -/
theorem build_prompt_total_eq (E : Tokenizer) (summary : String)
    (history : List Message) (hrv : HrvContext) (rag_hits : List RagHit)
    (user_message : String) :
    (build_prompt E summary history hrv rag_hits user_message).2.tokens_total =
      (build_prompt E summary history hrv rag_hits user_message).2.tokens_system +
      (build_prompt E summary history hrv rag_hits user_message).2.tokens_summary +
      (build_prompt E summary history hrv rag_hits user_message).2.tokens_hrv +
      (build_prompt E summary history hrv rag_hits user_message).2.tokens_rag +
      (build_prompt E summary history hrv rag_hits user_message).2.tokens_history +
      (count_tokens E user_message + 4) := by
  simp only [build_prompt]
  omega

/-- C10: the token breakdown returned by `_build_prompt` satisfies
`tokens_total = tokens_system + tokens_summary + tokens_hrv + tokens_rag +
tokens_history + (user message cost + 4)`, and every category is
non-negative. -/
theorem breakdown_consistent (E : Tokenizer) (summary : String)
    (history : List Message) (hrv : HrvContext) (rag_hits : List RagHit)
    (user_message : String) :
    ((build_prompt E summary history hrv rag_hits user_message).2.tokens_total =
      (build_prompt E summary history hrv rag_hits user_message).2.tokens_system +
      (build_prompt E summary history hrv rag_hits user_message).2.tokens_summary +
      (build_prompt E summary history hrv rag_hits user_message).2.tokens_hrv +
      (build_prompt E summary history hrv rag_hits user_message).2.tokens_rag +
      (build_prompt E summary history hrv rag_hits user_message).2.tokens_history +
      (count_tokens E user_message + 4)) ∧
    0 ≤ (build_prompt E summary history hrv rag_hits user_message).2.tokens_system ∧
    0 ≤ (build_prompt E summary history hrv rag_hits user_message).2.tokens_summary ∧
    0 ≤ (build_prompt E summary history hrv rag_hits user_message).2.tokens_hrv ∧
    0 ≤ (build_prompt E summary history hrv rag_hits user_message).2.tokens_rag ∧
    0 ≤ (build_prompt E summary history hrv rag_hits user_message).2.tokens_history ∧
    0 ≤ (build_prompt E summary history hrv rag_hits user_message).2.tokens_total :=
  ⟨build_prompt_total_eq E summary history hrv rag_hits user_message,
   Nat.zero_le _, Nat.zero_le _, Nat.zero_le _, Nat.zero_le _, Nat.zero_le _, Nat.zero_le _⟩

/-- C1 evidence: on an incoming message of 100001 tokens (with empty summary,
history, biometric context and passages), `_build_prompt` returns a breakdown
whose `tokens_total` exceeds `MAX_TOKENS`, and no overflow condition exists in
its interface (the function returns normally). -/
theorem budget_overflow_unsignalled :
    MAX_TOKENS < (build_prompt charEnc "" [] emptyHrv [] (aStr 100001)).2.tokens_total := by
  have h := build_prompt_total_eq charEnc "" [] emptyHrv [] (aStr 100001)
  rw [count_tokens_aStr] at h
  show 100000 < _
  omega

/-- When no candidate pair fits the budget, the ladder's fallthrough keeps the
full initial sizes. -/
theorem choose_alloc_of_none (total : Nat → Nat → Nat) (rf hf : Nat)
    (h : ∀ r hh : Nat, ¬ total r hh ≤ MAX_TOKENS) :
    choose_alloc total rf hf = (rf, hf) := by
  unfold choose_alloc
  have hn : List.find? (fun p => decide (total p.1 p.2 ≤ MAX_TOKENS))
      (alloc_pairs rf hf) = none := by
    rw [List.find?_eq_none]
    intro p _
    simp only [decide_eq_true_eq]
    exact h p.1 p.2
  rw [hn]

theorem filterMap_replicate_some {α β : Type} {f : α → Option β} {x : α} {y : β}
    (h : f x = some y) (n : Nat) :
    (List.replicate n x).filterMap f = List.replicate n y := by
  induction n with
  | zero => simp
  | succ k ih => simp [List.replicate_succ, h, ih]

/-- `_hist_tok` on a uniform block list under the reference encoding. -/
theorem hist_tok_charEnc_replicate (m n k : Nat) (r : String) (hn : n ≤ m) :
    hist_tok charEnc (List.replicate m (⟨r, aStr k⟩ : ChatMsg)) n =
      if n = 0 then 0 else n * (k + 4) := by
  by_cases h0 : n = 0
  · simp [hist_tok, h0]
  · rw [if_neg h0]
    unfold hist_tok lastN
    rw [if_neg h0, List.length_replicate, List.drop_replicate,
      Nat.sub_sub_self hn, List.map_replicate, count_tokens_aStr,
      List.sum_replicate, smul_eq_mul]

/-- The two history rows of the C2 scenario. -/
def histC2 : List Message := [⟨1, "user", "h"⟩, ⟨2, "assistant", "h"⟩]

/-- C2 evidence: with one passage, two history turns and an incoming message
of 100001 tokens, no candidate pair fits (even `(0, 0)` overflows), yet the
allocator returns the FULL sizes `(1, 2)` — not `(0, 0)` — and raises no
condition. -/
theorem alloc_falls_back_to_full :
    alloc_sizes charEnc "" histC2 emptyHrv [⟨"y"⟩] (aStr 100001) = (1, 2) ∧
    ¬ total_tokens_at charEnc "" histC2 emptyHrv [⟨"y"⟩] (aStr 100001) 0 0 ≤ MAX_TOKENS := by
  have hbad : ∀ r hh : Nat,
      ¬ total_tokens_at charEnc "" histC2 emptyHrv [⟨"y"⟩] (aStr 100001) r hh ≤ MAX_TOKENS := by
    intro r hh hle
    unfold total_tokens_at MAX_TOKENS at hle
    rw [count_tokens_aStr] at hle
    omega
  refine ⟨?_, hbad 0 0⟩
  unfold alloc_sizes
  rw [choose_alloc_of_none _ _ _ hbad]
  decide

/-- The thirteen history rows of the C3 scenario: uniform user turns of 7700
tokens each (under the reference encoding). -/
def histC3 : List Message := List.replicate 13 ⟨0, "user", aStr 7700⟩

theorem history_blocks_histC3 :
    history_blocks histC3 = List.replicate 13 (⟨"user", aStr 7700⟩ : ChatMsg) := by
  have hl : lastN RECENT_TURNS histC3 = histC3 := by
    unfold lastN histC3 RECENT_TURNS
    rw [List.length_replicate]
    norm_num
  unfold history_blocks
  rw [hl]
  unfold histC3
  refine filterMap_replicate_some ?_ 13
  have hne : aStr 7700 ≠ "" := aStr_ne_empty (by norm_num)
  simp [hne]

set_option maxRecDepth 8000 in
/-- C3 evidence: with one passage and thirteen eligible history turns whose
full inclusion overflows, the ladder selects `(rag_n, hist_n) = (1, 12)`:
history is reduced below its maximum while the passage count stays at its
full (non-zero) value. -/
theorem history_reduced_while_rag_kept :
    alloc_sizes charEnc "" histC3 emptyHrv [⟨"x"⟩] "u" = (1, 12) ∧
    (history_blocks histC3).length = 13 ∧
    (trimmed_snips charEnc [⟨"x"⟩]).length = 1 := by
  have hblocks := history_blocks_histC3
  have hsnips : trimmed_snips charEnc [⟨"x"⟩] = ["x"] := by decide
  have hh13 : hist_tok charEnc (history_blocks histC3) 13 = 100152 := by
    rw [hblocks, hist_tok_charEnc_replicate 13 13 7700 _ le_rfl]
    norm_num
  have hh12 : hist_tok charEnc (history_blocks histC3) 12 = 92448 := by
    rw [hblocks, hist_tok_charEnc_replicate 13 12 7700 _ (by norm_num)]
    norm_num
  have hfix : used_fixed charEnc "" = 230 := by decide
  have hhrv : hrv_daily_tok charEnc emptyHrv + hrv_agg_tok charEnc emptyHrv = 0 := by decide
  have hrag : rag_tok charEnc (trimmed_snips charEnc [⟨"x"⟩]) 1 = 5 := by
    rw [hsnips]
    decide
  have hu : count_tokens charEnc "u" = 1 := by decide
  have ht13 : ¬ total_tokens_at charEnc "" histC3 emptyHrv [⟨"x"⟩] "u" 1 13 ≤ MAX_TOKENS := by
    unfold total_tokens_at
    rw [hfix, hhrv, hrag, hh13, hu]
    decide
  have ht12 : total_tokens_at charEnc "" histC3 emptyHrv [⟨"x"⟩] "u" 1 12 ≤ MAX_TOKENS := by
    unfold total_tokens_at
    rw [hfix, hhrv, hrag, hh12, hu]
    decide
  have hlen1 : (trimmed_snips charEnc [⟨"x"⟩]).length = 1 := by
    rw [hsnips]
    rfl
  have hlen13 : (history_blocks histC3).length = 13 := by
    rw [hblocks]
    simp
  refine ⟨?_, hlen13, hlen1⟩
  unfold alloc_sizes
  rw [hlen1, hlen13]
  unfold choose_alloc
  have hpairs : alloc_pairs 1 13 =
      (1, 13) :: (1, 12) :: [(1, 8), (1, 4), (1, 0), (1, 13), (1, 12), (1, 8), (1, 4), (1, 0),
        (1, 13), (1, 12), (1, 8), (1, 4), (1, 0), (0, 13), (0, 12), (0, 8), (0, 4), (0, 0)] := by
    decide
  rw [hpairs]
  rw [List.find?_cons_of_neg _ (by simpa using ht13),
    List.find?_cons_of_pos _ (by simpa using ht12)]

theorem get_or_create_eq (st : ConvState) :
    get_or_create_summary st = (ensureRow st, ⟨current_summary_of st, watermark_of st⟩) := by
  cases h : st.summaryRow <;>
    simp [get_or_create_summary, ensureRow, current_summary_of, watermark_of, h]

theorem ensureRow_messages (st : ConvState) : (ensureRow st).messages = st.messages := by
  cases h : st.summaryRow <;> simp [ensureRow, h]

theorem ensureRow_idem (st : ConvState) : ensureRow (ensureRow st) = ensureRow st := by
  cases h : st.summaryRow <;> simp [ensureRow, h]

theorem watermark_of_ensure (st : ConvState) :
    watermark_of (ensureRow st) = watermark_of st := by
  cases h : st.summaryRow <;> simp [ensureRow, watermark_of, h]

theorem current_of_ensure (st : ConvState) :
    current_summary_of (ensureRow st) = current_summary_of st := by
  cases h : st.summaryRow <;> simp [ensureRow, current_summary_of, h]

theorem ensureRow_row_some (st : ConvState) :
    (ensureRow st).summaryRow = some ⟨current_summary_of st, watermark_of st⟩ := by
  cases h : st.summaryRow <;>
    simp [ensureRow, current_summary_of, watermark_of, h]

theorem count_db_ensure (st : ConvState) :
    count_messages_db (ensureRow st) = count_messages_db st := by
  unfold count_messages_db
  rw [ensureRow_messages]

theorem fetch_recent_ensure (st : ConvState) (n : Nat) :
    fetch_recent_message_ids (ensureRow st) n = fetch_recent_message_ids st n := by
  unfold fetch_recent_message_ids
  rw [ensureRow_messages]

theorem fetch_for_summ_ensure (st : ConvState) (w : Option Nat) (c : Nat) :
    fetch_messages_for_summarization (ensureRow st) w c =
      fetch_messages_for_summarization st w c := by
  unfold fetch_messages_for_summarization
  rw [ensureRow_messages]

theorem eligible_older_ensure (st : ConvState) :
    eligible_older (ensureRow st) = eligible_older st := by
  unfold eligible_older
  rw [fetch_recent_ensure, watermark_of_ensure, fetch_for_summ_ensure]

theorem older_tokens_ensure (E : Tokenizer) (st : ConvState) :
    older_tokens_of E (ensureRow st) = older_tokens_of E st := by
  unfold older_tokens_of
  rw [eligible_older_ensure]

theorem update_messages (st : ConvState) (i : Nat) (s : String) :
    (update_summary st i s).messages = st.messages := by
  cases h : st.summaryRow <;> simp [update_summary, h]

theorem update_row_of_some (st : ConvState) {r : SummaryRow} (h : st.summaryRow = some r)
    (i : Nat) (s : String) :
    (update_summary st i s).summaryRow = some ⟨s, some i⟩ := by
  simp [update_summary, h]

theorem ensureRow_of_some (st : ConvState) {r : SummaryRow} (h : st.summaryRow = some r) :
    ensureRow st = st := by
  simp [ensureRow, h]

/-- `maybe_summarize` characterized by the trigger conditions: it is a no-op
when the recent window is empty or neither trigger fires, and otherwise runs
the compression tail on the eligible older messages. -/
theorem maybe_summarize_eq (E : Tokenizer) (oracle : Oracle) (st : ConvState) :
    maybe_summarize E oracle st =
      if fetch_recent_message_ids st RECENT_TURNS = [] then
        (ensureRow st, current_summary_of st)
      else if count_messages_db st ≤ SUMMARIZE_THRESHOLD ∧
          older_tokens_of E st < HISTORY_TOKEN_TRIGGER then
        (ensureRow st, current_summary_of st)
      else
        run_compression E oracle (ensureRow st) (current_summary_of st) (eligible_older st) := by
  unfold maybe_summarize
  rw [get_or_create_eq]
  simp only [fetch_recent_ensure, fetch_for_summ_ensure]
  by_cases hrec : fetch_recent_message_ids st RECENT_TURNS = []
  · rw [if_pos hrec, if_pos hrec]
  · rw [if_neg hrec, if_neg hrec]
    have hel : eligible_older st =
        fetch_messages_for_summarization st (watermark_of st)
          ((fetch_recent_message_ids st RECENT_TURNS).headD 0) := by
      unfold eligible_older
      rw [if_neg hrec]
    have htok : ((fetch_messages_for_summarization st (watermark_of st)
        ((fetch_recent_message_ids st RECENT_TURNS).headD 0)).map
          (fun m => count_tokens E m.content)).sum = older_tokens_of E st := by
      unfold older_tokens_of
      rw [hel]
    rw [htok, ← hel]
    split_ifs <;> first | rfl | tauto

theorem run_compression_nil (E : Tokenizer) (oracle : Oracle) (st : ConvState)
    (cur : String) : run_compression E oracle st cur [] = (st, cur) := rfl

theorem run_compression_error (E : Tokenizer) (oracle : Oracle) (st : ConvState)
    (cur : String) (ts : List Message) {e : String}
    (h : oracle (summarization_prompt cur ts) = Except.error e) :
    run_compression E oracle st cur ts = (st, cur) := by
  cases ts with
  | nil => rfl
  | cons a t =>
    unfold run_compression
    rw [h]

theorem run_compression_ok (E : Tokenizer) (oracle : Oracle) (st : ConvState)
    (cur : String) (ts : List Message) {raw : String} (hne : ts ≠ [])
    (h : oracle (summarization_prompt cur ts) = Except.ok raw) :
    run_compression E oracle st cur ts =
      (update_summary st (maxIdOf ts) (trim_text_to_tokens E raw SUMMARY_MAX_TOKENS),
       trim_text_to_tokens E raw SUMMARY_MAX_TOKENS) := by
  cases ts with
  | nil => exact absurd rfl hne
  | cons a t =>
    unfold run_compression
    rw [h]

/-- Every run of the scheduler either leaves the summary row untouched
(beyond its lazy creation) or stores the maximum id of the eligible older
messages as the new watermark. -/
theorem maybe_summarize_cases (E : Tokenizer) (oracle : Oracle) (st : ConvState) :
    maybe_summarize E oracle st = (ensureRow st, current_summary_of st) ∨
      (eligible_older st ≠ [] ∧ ∃ s,
        maybe_summarize E oracle st =
          (update_summary (ensureRow st) (maxIdOf (eligible_older st)) s, s)) := by
  rw [maybe_summarize_eq]
  split_ifs with h1 h2
  · exact Or.inl rfl
  · exact Or.inl rfl
  · cases hel : eligible_older st with
    | nil => rw [run_compression_nil]; exact Or.inl rfl
    | cons a t =>
      cases horacle : oracle (summarization_prompt (current_summary_of st) (a :: t)) with
      | error e =>
        rw [run_compression_error E oracle _ _ _ horacle]
        exact Or.inl rfl
      | ok raw =>
        right
        refine ⟨by simp, _, run_compression_ok E oracle _ _ _ (by simp) horacle⟩

/-- Order on stored watermarks: `none` (never summarized) is below
everything, and a non-null watermark may only grow. -/
def wmLe : Option Nat → Option Nat → Prop
  | none, _ => True
  | some _, none => False
  | some a, some b => a ≤ b

theorem wmLe_refl (a : Option Nat) : wmLe a a := by
  cases a <;> simp [wmLe]

theorem wmLe_trans {a b c : Option Nat} (h1 : wmLe a b) (h2 : wmLe b c) : wmLe a c := by
  cases a <;> cases b <;> cases c <;> simp_all [wmLe]
  omega

theorem foldl_max_init (t : List Message) (acc : Nat) :
    acc ≤ t.foldl (fun a x => max a x.id) acc := by
  induction t generalizing acc with
  | nil => exact le_refl _
  | cons y ys ih => exact le_trans (le_max_left _ _) (ih _)

theorem foldl_max_mem (t : List Message) (acc : Nat) {x : Message} (hx : x ∈ t) :
    x.id ≤ t.foldl (fun a m => max a m.id) acc := by
  induction t generalizing acc with
  | nil => cases hx
  | cons y ys ih =>
    rcases List.mem_cons.mp hx with h | h
    · subst h
      exact le_trans (le_max_right _ _) (foldl_max_init _ _)
    · exact ih _ h

theorem le_maxIdOf {l : List Message} {m : Message} (hm : m ∈ l) : m.id ≤ maxIdOf l := by
  cases l with
  | nil => cases hm
  | cons a t =>
    rcases List.mem_cons.mp hm with h | h
    · subst h
      exact foldl_max_init _ _
    · exact foldl_max_mem _ _ h

/-- Every eligible older message has an id strictly above the stored
watermark and strictly below the cutoff of the recent window. -/
theorem eligible_older_id_bounds {st : ConvState} {m : Message}
    (hm : m ∈ eligible_older st) :
    (∀ a, watermark_of st = some a → a < m.id) ∧
      m.id < (fetch_recent_message_ids st RECENT_TURNS).headD 0 := by
  unfold eligible_older at hm
  by_cases hrec : fetch_recent_message_ids st RECENT_TURNS = []
  · rw [if_pos hrec] at hm
    cases hm
  · rw [if_neg hrec] at hm
    unfold fetch_messages_for_summarization at hm
    have h2 := (List.mem_filter.mp hm).2
    constructor
    · intro a ha
      rw [ha] at h2
      simp only [Bool.and_eq_true, decide_eq_true_eq] at h2
      exact h2.1
    · cases hw : watermark_of st <;> rw [hw] at h2 <;>
        simp only [Bool.and_eq_true, decide_eq_true_eq] at h2
      · exact h2.2
      · exact h2.2

/-- The watermark stored by `update_summary` on an existing row. -/
theorem watermark_of_update_of_some (st : ConvState) {r : SummaryRow}
    (h : st.summaryRow = some r) (i : Nat) (s : String) :
    watermark_of (update_summary st i s) = some i := by
  unfold watermark_of
  rw [update_row_of_some st h i s]

/-- A single scheduler run never lowers the stored watermark. -/
theorem maybe_summarize_wm_mono (E : Tokenizer) (oracle : Oracle) (st : ConvState) :
    wmLe (watermark_of st) (watermark_of (maybe_summarize E oracle st).1) := by
  rcases maybe_summarize_cases E oracle st with h | ⟨hne, s, h⟩
  · rw [h]
    show wmLe _ (watermark_of (ensureRow st))
    rw [watermark_of_ensure]
    exact wmLe_refl _
  · rw [h]
    show wmLe (watermark_of st)
      (watermark_of (update_summary (ensureRow st) (maxIdOf (eligible_older st)) s))
    rw [watermark_of_update_of_some (ensureRow st) (ensureRow_row_some st)]
    cases hw : watermark_of st with
    | none => exact trivial
    | some a =>
      show a ≤ maxIdOf (eligible_older st)
      obtain ⟨m, hmem⟩ := List.exists_mem_of_ne_nil _ hne
      exact le_trans (le_of_lt ((eligible_older_id_bounds hmem).1 a hw)) (le_maxIdOf hmem)

/-- One step of the exercised store interface: insert any batch of new
messages (store-assigned increasing ids), then run the scheduler with an
arbitrary completion oracle (which may fail). -/
def SchedStep : Type := List (String × String) × Oracle

/-- Apply one step to the conversation state. -/
def apply_step (E : Tokenizer) (st : ConvState) (step : SchedStep) : ConvState :=
  (maybe_summarize E step.2
    (step.1.foldl (fun s rc => insert_message s rc.1 rc.2) st)).1

/-- Apply a finite sequence of steps. -/
def apply_steps (E : Tokenizer) (steps : List SchedStep) (st : ConvState) : ConvState :=
  steps.foldl (apply_step E) st

theorem watermark_of_insert (st : ConvState) (r c : String) :
    watermark_of (insert_message st r c) = watermark_of st := rfl

theorem watermark_of_insert_batch (l : List (String × String)) (st : ConvState) :
    watermark_of (l.foldl (fun s rc => insert_message s rc.1 rc.2) st) = watermark_of st := by
  induction l generalizing st with
  | nil => rfl
  | cons x xs ih => rw [List.foldl_cons, ih, watermark_of_insert]

/-- C4: across any finite sequence of scheduler runs — successful or failed,
with arbitrary message insertions in between — the stored
`summarized_through_message_id` watermark never decreases (in particular,
once non-null it stays non-null and non-decreasing). -/
theorem watermark_monotonic (E : Tokenizer) (steps : List SchedStep) (st : ConvState) :
    wmLe (watermark_of st) (watermark_of (apply_steps E steps st)) := by
  induction steps generalizing st with
  | nil => exact wmLe_refl _
  | cons s rest ih =>
    refine wmLe_trans ?_ (ih (apply_step E st s))
    unfold apply_step
    rw [← watermark_of_insert_batch s.1 st]
    exact maybe_summarize_wm_mono E s.2 _

/-- C5: if the compression call fails, the scheduler returns the previous
summary unchanged and does not touch the stored row (beyond its lazy
creation); the failure is swallowed, not surfaced. -/
theorem failed_compression_preserves (E : Tokenizer) (oracle : Oracle) (st : ConvState)
    (e : String)
    (h : oracle (summarization_prompt (current_summary_of st) (eligible_older st)) =
      Except.error e) :
    maybe_summarize E oracle st = (ensureRow st, current_summary_of st) := by
  rw [maybe_summarize_eq]
  split_ifs with h1 h2
  · rfl
  · rfl
  · exact run_compression_error E oracle _ _ _ h

/-- The always-failing completion oracle. -/
def failOracle : Oracle := fun _ => Except.error "boom"

/-- A conversation with 41 small messages (over the message-count threshold)
and no summary row yet. -/
def st41 : ConvState :=
  ⟨(List.range 41).map (fun i => ⟨i + 1, "user", "m"⟩), none, 42⟩

/-- Concrete instance of `failed_compression_preserves` on a conversation
that does trigger compression. -/
theorem failed_compression_preserves_witness :
    failOracle (summarization_prompt (current_summary_of st41) (eligible_older st41)) =
        Except.error "boom" ∧
      maybe_summarize charEnc failOracle st41 = (ensureRow st41, current_summary_of st41) :=
  ⟨rfl, failed_compression_preserves charEnc failOracle st41 "boom" rfl⟩

theorem current_of_update_of_some (st : ConvState) {r : SummaryRow}
    (h : st.summaryRow = some r) (i : Nat) (s : String) :
    current_summary_of (update_summary st i s) = s := by
  unfold current_summary_of
  rw [update_row_of_some st h i s]

theorem count_db_update (st : ConvState) (i : Nat) (s : String) :
    count_messages_db (update_summary st i s) = count_messages_db st := by
  unfold count_messages_db
  rw [update_messages]

theorem fetch_recent_update (st : ConvState) (i : Nat) (s : String) (n : Nat) :
    fetch_recent_message_ids (update_summary st i s) n = fetch_recent_message_ids st n := by
  unfold fetch_recent_message_ids
  rw [update_messages]

/-- After a successful compression the set of eligible older messages is
empty: every message below the cutoff is at or below the new watermark. -/
theorem eligible_after_update_empty (st : ConvState)
    (hne : eligible_older st ≠ []) (s : String) :
    eligible_older (update_summary (ensureRow st) (maxIdOf (eligible_older st)) s) = [] := by
  have hrec : ¬ fetch_recent_message_ids st RECENT_TURNS = [] := by
    intro hr
    exact hne (by unfold eligible_older; rw [if_pos hr])
  have key : ∀ i : Nat,
      (∀ m ∈ sortById st.messages,
        ¬ (i < m.id ∧ m.id < (fetch_recent_message_ids st RECENT_TURNS).headD 0)) →
      eligible_older (update_summary (ensureRow st) i s) = [] := by
    intro i hi
    have hmsgs : (update_summary (ensureRow st) i s).messages = st.messages := by
      rw [update_messages, ensureRow_messages]
    have hfr : fetch_recent_message_ids (update_summary (ensureRow st) i s) RECENT_TURNS =
        fetch_recent_message_ids st RECENT_TURNS := by
      unfold fetch_recent_message_ids
      rw [hmsgs]
    have hwm : watermark_of (update_summary (ensureRow st) i s) = some i :=
      watermark_of_update_of_some (ensureRow st) (ensureRow_row_some st) _ _
    unfold eligible_older
    rw [hfr, if_neg hrec, hwm]
    unfold fetch_messages_for_summarization
    rw [hmsgs, List.filter_eq_nil_iff]
    intro m hm hboth
    simp only [Bool.and_eq_true, decide_eq_true_eq] at hboth
    exact hi m hm hboth
  apply key
  intro m hm hboth
  obtain ⟨hgt, hltc⟩ := hboth
  have hmem : m ∈ eligible_older st := by
    unfold eligible_older
    rw [if_neg hrec]
    unfold fetch_messages_for_summarization
    rw [List.mem_filter]
    refine ⟨hm, ?_⟩
    cases hw : watermark_of st with
    | none =>
      simp only [Bool.and_eq_true, decide_eq_true_eq]
      exact ⟨trivial, hltc⟩
    | some a =>
      simp only [Bool.and_eq_true, decide_eq_true_eq]
      obtain ⟨m0, hm0⟩ := List.exists_mem_of_ne_nil _ hne
      have ha : a < m0.id := (eligible_older_id_bounds hm0).1 a hw
      have hle : m0.id ≤ maxIdOf (eligible_older st) := le_maxIdOf hm0
      exact ⟨by omega, hltc⟩
  have := le_maxIdOf hmem
  omega

/-- C7: running the scheduler twice with no messages inserted in between
yields the same result both times (same returned summary, same stored state);
in particular a run that finds no messages to compress never moves the
watermark. -/
theorem scheduler_idempotent (E : Tokenizer) (oracle : Oracle) (st : ConvState) :
    maybe_summarize E oracle ((maybe_summarize E oracle st).1) =
      maybe_summarize E oracle st ∧
    (eligible_older st = [] →
      watermark_of (maybe_summarize E oracle st).1 = watermark_of st) := by
  constructor
  · rw [maybe_summarize_eq E oracle st]
    by_cases hrec : fetch_recent_message_ids st RECENT_TURNS = []
    · rw [if_pos hrec]
      rw [maybe_summarize_eq]
      simp only [fetch_recent_ensure]
      rw [if_pos hrec, ensureRow_idem, current_of_ensure]
    · rw [if_neg hrec]
      by_cases htrig : count_messages_db st ≤ SUMMARIZE_THRESHOLD ∧
          older_tokens_of E st < HISTORY_TOKEN_TRIGGER
      · rw [if_pos htrig]
        rw [maybe_summarize_eq]
        simp only [fetch_recent_ensure, count_db_ensure, older_tokens_ensure]
        rw [if_neg hrec, if_pos htrig, ensureRow_idem, current_of_ensure]
      · rw [if_neg htrig]
        cases hel : eligible_older st with
        | nil =>
          rw [run_compression_nil]
          rw [maybe_summarize_eq]
          simp only [fetch_recent_ensure, count_db_ensure, older_tokens_ensure]
          rw [if_neg hrec, if_neg htrig, eligible_older_ensure, hel,
            run_compression_nil, ensureRow_idem, current_of_ensure]
        | cons a t =>
          cases horacle : oracle (summarization_prompt (current_summary_of st) (a :: t)) with
          | error e =>
            rw [run_compression_error E oracle _ _ _ horacle]
            rw [maybe_summarize_eq]
            simp only [fetch_recent_ensure, count_db_ensure, older_tokens_ensure]
            rw [if_neg hrec, if_neg htrig, eligible_older_ensure, hel,
              run_compression_error E oracle _ _ _ (by rw [current_of_ensure]; exact horacle),
              ensureRow_idem, current_of_ensure]
          | ok raw =>
            rw [run_compression_ok E oracle _ _ _ (List.cons_ne_nil a t) horacle]
            have hne : eligible_older st ≠ [] := by
              rw [hel]
              exact List.cons_ne_nil a t
            have hmax : maxIdOf (a :: t) = maxIdOf (eligible_older st) := by rw [hel]
            rw [hmax]
            have hrow2 := update_row_of_some (ensureRow st) (ensureRow_row_some st)
              (maxIdOf (eligible_older st)) (trim_text_to_tokens E raw SUMMARY_MAX_TOKENS)
            have hens2 := ensureRow_of_some _ hrow2
            have hcur2 := current_of_update_of_some (ensureRow st) (ensureRow_row_some st)
              (maxIdOf (eligible_older st)) (trim_text_to_tokens E raw SUMMARY_MAX_TOKENS)
            have hel2 := eligible_after_update_empty st hne
              (trim_text_to_tokens E raw SUMMARY_MAX_TOKENS)
            have hfr2 : fetch_recent_message_ids
                (update_summary (ensureRow st) (maxIdOf (eligible_older st))
                  (trim_text_to_tokens E raw SUMMARY_MAX_TOKENS)) RECENT_TURNS =
                fetch_recent_message_ids st RECENT_TURNS := by
              unfold fetch_recent_message_ids
              rw [update_messages, ensureRow_messages]
            rw [maybe_summarize_eq]
            rw [hfr2, if_neg hrec]
            by_cases htrig2 : count_messages_db
                (update_summary (ensureRow st) (maxIdOf (eligible_older st))
                  (trim_text_to_tokens E raw SUMMARY_MAX_TOKENS)) ≤ SUMMARIZE_THRESHOLD ∧
                older_tokens_of E
                  (update_summary (ensureRow st) (maxIdOf (eligible_older st))
                    (trim_text_to_tokens E raw SUMMARY_MAX_TOKENS)) < HISTORY_TOKEN_TRIGGER
            · rw [if_pos htrig2, hens2, hcur2]
            · rw [if_neg htrig2, hel2, run_compression_nil, hens2, hcur2]
  · intro hel
    rcases maybe_summarize_cases E oracle st with h | ⟨hne, s, h⟩
    · rw [h]
      exact watermark_of_ensure st
    · exact absurd hel hne

/-- The empty conversation. -/
def stEmpty : ConvState := ⟨[], none, 1⟩

/-- A completion oracle that always succeeds with the text `"s"`. -/
def okOracleS : Oracle := fun _ => Except.ok "s"

/-- Concrete instance of `scheduler_idempotent`. -/
theorem scheduler_idempotent_witness :
    eligible_older stEmpty = [] ∧
    maybe_summarize charEnc okOracleS ((maybe_summarize charEnc okOracleS stEmpty).1) =
      maybe_summarize charEnc okOracleS stEmpty ∧
    watermark_of (maybe_summarize charEnc okOracleS stEmpty).1 = watermark_of stEmpty :=
  ⟨rfl, (scheduler_idempotent charEnc okOracleS stEmpty).1,
   (scheduler_idempotent charEnc okOracleS stEmpty).2 rfl⟩

/-- C6 (amended: the token trigger fires at `older_tokens ≥
HISTORY_TOKEN_TRIGGER`, i.e. also at exactly 60000): the scheduler
compresses exactly when the total message count exceeds
`SUMMARIZE_THRESHOLD` or the eligible older messages cost at least
`HISTORY_TOKEN_TRIGGER` tokens, and some eligible older message exists;
otherwise it is a no-op returning the existing summary with the stored row
untouched. -/
theorem compression_trigger (E : Tokenizer) (oracle : Oracle) (st : ConvState) (t : String) :
    (count_messages_db st ≤ SUMMARIZE_THRESHOLD ∧
        older_tokens_of E st < HISTORY_TOKEN_TRIGGER ∨ eligible_older st = [] →
      maybe_summarize E oracle st = (ensureRow st, current_summary_of st)) ∧
    ((SUMMARIZE_THRESHOLD < count_messages_db st ∨
        HISTORY_TOKEN_TRIGGER ≤ older_tokens_of E st) ∧ eligible_older st ≠ [] →
      maybe_summarize E (fun _ => Except.ok t) st =
        (update_summary (ensureRow st) (maxIdOf (eligible_older st))
          (trim_text_to_tokens E t SUMMARY_MAX_TOKENS),
         trim_text_to_tokens E t SUMMARY_MAX_TOKENS)) := by
  constructor
  · intro h
    rw [maybe_summarize_eq]
    by_cases hrec : fetch_recent_message_ids st RECENT_TURNS = []
    · rw [if_pos hrec]
    · rw [if_neg hrec]
      rcases h with htrig | hel
      · rw [if_pos htrig]
      · by_cases htrig : count_messages_db st ≤ SUMMARIZE_THRESHOLD ∧
            older_tokens_of E st < HISTORY_TOKEN_TRIGGER
        · rw [if_pos htrig]
        · rw [if_neg htrig, hel, run_compression_nil]
  · intro h
    obtain ⟨htrig, hne⟩ := h
    have hrec : ¬ fetch_recent_message_ids st RECENT_TURNS = [] := by
      intro hr
      exact hne (by unfold eligible_older; rw [if_pos hr])
    rw [maybe_summarize_eq]
    rw [if_neg hrec, if_neg (by
      intro hand
      rcases htrig with h1 | h2
      · omega
      · omega)]
    exact run_compression_ok E _ _ _ _ hne rfl

/-- A completion oracle that always succeeds with the text `"NEW"`. -/
def okNew : Oracle := fun _ => Except.ok "NEW"

/-- The boundary conversation: 22 messages total (at most the count
threshold), whose two pre-window messages cost exactly
`HISTORY_TOKEN_TRIGGER` tokens under the reference encoding; summary row
present with empty summary and null watermark. -/
def stBoundary : ConvState :=
  ⟨[⟨1, "user", aStr 30000⟩, ⟨2, "assistant", aStr 30000⟩] ++
    (List.range 20).map (fun i => ⟨3 + i, "user", "m"⟩), some ⟨"", none⟩, 23⟩

set_option maxRecDepth 8000 in
theorem eligible_stBoundary :
    eligible_older stBoundary =
      [⟨1, "user", aStr 30000⟩, ⟨2, "assistant", aStr 30000⟩] := rfl

theorem older_tokens_stBoundary : older_tokens_of charEnc stBoundary = 60000 := by
  unfold older_tokens_of
  rw [eligible_stBoundary]
  simp [count_tokens_aStr]

set_option maxRecDepth 8000 in
/-- C6 counterexample: at the boundary state neither strict condition of the
claim holds (22 messages is not more than 40, and the eligible older
messages cost exactly 60000 tokens, which does not exceed
`HISTORY_TOKEN_TRIGGER`), yet the scheduler is not a no-op: it returns the
oracle's new summary and advances the watermark from null to 2. -/
theorem token_trigger_fires_at_boundary :
    count_messages_db stBoundary ≤ SUMMARIZE_THRESHOLD ∧
    older_tokens_of charEnc stBoundary = HISTORY_TOKEN_TRIGGER ∧
    current_summary_of stBoundary = "" ∧
    watermark_of stBoundary = none ∧
    (maybe_summarize charEnc okNew stBoundary).2 = "NEW" ∧
    watermark_of (maybe_summarize charEnc okNew stBoundary).1 = some 2 := by
  have hrec : ¬ fetch_recent_message_ids stBoundary RECENT_TURNS = [] := by decide
  have hens : ensureRow stBoundary = stBoundary := ensureRow_of_some _ rfl
  have hmax : maxIdOf (eligible_older stBoundary) = 2 := by
    rw [eligible_stBoundary]
    rfl
  have htrim : trim_text_to_tokens charEnc "NEW" SUMMARY_MAX_TOKENS = "NEW" := by decide
  have hrun : maybe_summarize charEnc okNew stBoundary =
      (update_summary stBoundary 2 "NEW", "NEW") := by
    rw [maybe_summarize_eq]
    rw [if_neg hrec, if_neg (by
      intro hand
      rw [older_tokens_stBoundary] at hand
      exact absurd hand.2 (by norm_num [HISTORY_TOKEN_TRIGGER]))]
    rw [run_compression_ok charEnc okNew _ _ _
      (by rw [eligible_stBoundary]; exact List.cons_ne_nil _ _) rfl]
    rw [hens, hmax, htrim]
  refine ⟨by decide, older_tokens_stBoundary, rfl, rfl, ?_, ?_⟩
  · rw [hrun]
  · rw [hrun]
    exact watermark_of_update_of_some stBoundary rfl 2 "NEW"

/-- Concrete instances of both directions of `compression_trigger`: the empty
conversation is a no-op, and the boundary conversation compresses. -/
theorem compression_trigger_witness :
    maybe_summarize charEnc failOracle stEmpty =
        (ensureRow stEmpty, current_summary_of stEmpty) ∧
      maybe_summarize charEnc (fun _ => Except.ok "NEW") stBoundary =
        (update_summary (ensureRow stBoundary) (maxIdOf (eligible_older stBoundary))
          (trim_text_to_tokens charEnc "NEW" SUMMARY_MAX_TOKENS),
         trim_text_to_tokens charEnc "NEW" SUMMARY_MAX_TOKENS) :=
  ⟨(compression_trigger charEnc failOracle stEmpty "x").1 (Or.inr rfl),
   (compression_trigger charEnc failOracle stBoundary "NEW").2
     ⟨Or.inr (by rw [older_tokens_stBoundary]; norm_num [HISTORY_TOKEN_TRIGGER]),
      by rw [eligible_stBoundary]; exact List.cons_ne_nil _ _⟩⟩

theorem insertById_append_last {m x : Message} (hmx : m.id < x.id) (l : List Message) :
    ∃ l', insertById m (l ++ [x]) = l' ++ [x] := by
  induction l with
  | nil =>
    refine ⟨[m], ?_⟩
    simp [insertById, le_of_lt hmx]
  | cons y ys ih =>
    by_cases hle : m.id ≤ y.id
    · exact ⟨m :: y :: ys, by simp [insertById, hle]⟩
    · obtain ⟨l', hl'⟩ := ih
      exact ⟨y :: l', by simp [insertById, hle, hl']⟩

/-- Sorting a list extended by a message with a strictly larger id than all
others keeps that message last. -/
theorem sortById_append_max {l : List Message} {x : Message}
    (h : ∀ m ∈ l, m.id < x.id) : ∃ l', sortById (l ++ [x]) = l' ++ [x] := by
  induction l with
  | nil => exact ⟨[], rfl⟩
  | cons m ls ih =>
    obtain ⟨l', hl'⟩ := ih (fun a ha => h a (List.mem_cons_of_mem _ ha))
    have hm : m.id < x.id := h m (List.mem_cons_self _ _)
    obtain ⟨l'', hl''⟩ := insertById_append_last hm l'
    refine ⟨l'', ?_⟩
    show insertById m (sortById (ls ++ [x])) = l'' ++ [x]
    rw [hl']
    exact hl''

theorem lastN_append_last {α : Type} (n : Nat) (hn : 0 < n) (l : List α) (x : α) :
    ∃ l', lastN n (l ++ [x]) = l' ++ [x] := by
  refine ⟨l.drop (l.length + 1 - n), ?_⟩
  unfold lastN
  have hlen : (l ++ [x]).length = l.length + 1 := by simp
  rw [hlen, List.drop_append_of_le_length (by omega)]

theorem filterMap_append_single {α β : Type} (f : α → Option β) (l : List α) {x : α}
    {y : β} (h : f x = some y) : (l ++ [x]).filterMap f = l.filterMap f ++ [y] := by
  rw [List.filterMap_append]
  simp [h]

/-- The prompt assembled by `_build_prompt` ends with the selected history
suffix. -/
theorem build_prompt_messages_split (E : Tokenizer) (s : String) (h : List Message)
    (hr : HrvContext) (r : List RagHit) (u : String) :
    ∃ pre, (build_prompt E s h hr r u).1 =
      pre ++ (if (alloc_sizes E s h hr r u).2 > 0 then
        lastN (alloc_sizes E s h hr r u).2 (history_blocks h) else []) :=
  ⟨_, rfl⟩

/-- C9: `chat_once` persists the incoming user message before fetching
history, so the fetched history ends with that message; whenever the chosen
`hist_n` covers the most recent history entry (`hist_n ≥ 1`) and the message
is non-empty, the prompt sent to the oracle contains the user message twice:
as the last included history turn and again as the appended final turn — two
consecutive role-user entries with identical content. -/
theorem user_message_duplicated (E : Tokenizer) (oracle : Oracle) (hrv : HrvContext)
    (rag_hits : List RagHit) (st : ConvState) (u : String)
    (hwf : ∀ m ∈ st.messages, m.id < st.nextId)
    (hu : u ≠ "")
    (hn : 0 < (alloc_sizes E ((maybe_summarize E oracle (insert_message st "user" u)).2)
        (fetch_history (insert_message st "user" u) (RECENT_TURNS + 2)) hrv rag_hits u).2) :
    ∃ l, chat_once_prompt E oracle hrv rag_hits st u =
      l ++ [⟨"user", u⟩, ⟨"user", u⟩] := by
  have hmsgs : (insert_message st "user" u).messages =
      st.messages ++ [⟨st.nextId, "user", u⟩] := rfl
  obtain ⟨l1, hl1⟩ :=
    sortById_append_max (l := st.messages) (x := ⟨st.nextId, "user", u⟩) hwf
  obtain ⟨l2, hl2⟩ : ∃ l2, fetch_history (insert_message st "user" u) (RECENT_TURNS + 2) =
      l2 ++ [⟨st.nextId, "user", u⟩] := by
    unfold fetch_history
    rw [hmsgs, hl1]
    exact lastN_append_last _ (by norm_num [RECENT_TURNS]) _ _
  obtain ⟨l4, hl4⟩ : ∃ l4, history_blocks (l2 ++ [⟨st.nextId, "user", u⟩]) =
      l4 ++ [(⟨"user", u⟩ : ChatMsg)] := by
    unfold history_blocks
    obtain ⟨l3, hl3⟩ := lastN_append_last RECENT_TURNS (by norm_num [RECENT_TURNS]) l2
      (⟨st.nextId, "user", u⟩ : Message)
    rw [hl3]
    exact ⟨_, filterMap_append_single _ _ (by simp [hu])⟩
  obtain ⟨pre, hpre⟩ := build_prompt_messages_split E
    ((maybe_summarize E oracle (insert_message st "user" u)).2)
    (fetch_history (insert_message st "user" u) (RECENT_TURNS + 2)) hrv rag_hits u
  simp only [chat_once_prompt]
  rw [hpre, if_pos hn, hl2]
  rw [hl2] at hn
  rw [hl4]
  obtain ⟨l5, hl5⟩ := lastN_append_last _ hn l4 (⟨"user", u⟩ : ChatMsg)
  rw [hl5]
  exact ⟨pre ++ l5, by simp [List.append_assoc]⟩

set_option maxRecDepth 8000 in
/-- Concrete instance of `user_message_duplicated`: one chat turn on a fresh
conversation already duplicates the incoming message. -/
theorem user_message_duplicated_witness :
    ("hi" : String) ≠ "" ∧
    0 < (alloc_sizes charEnc
        ((maybe_summarize charEnc okOracleS (insert_message stEmpty "user" "hi")).2)
        (fetch_history (insert_message stEmpty "user" "hi") (RECENT_TURNS + 2))
        emptyHrv [] "hi").2 ∧
    ∃ l, chat_once_prompt charEnc okOracleS emptyHrv [] stEmpty "hi" =
      l ++ [⟨"user", "hi"⟩, ⟨"user", "hi"⟩] :=
  ⟨by decide, by decide,
   user_message_duplicated charEnc okOracleS emptyHrv [] stEmpty "hi"
     (by intro m hm; exact absurd hm (List.not_mem_nil m)) (by decide) (by decide)⟩
